import Mathlib

/-!
Vet Care: page composition and route dispatch.

A shallow embedding of `src/App.js`.  The file declares two argument-free view
functions (`Home`, `About`) and the composition root `App`, which places a
navigation menu of two `Link`s above a `Routes` block with two `Route`s, all
inside a `HashRouter`.

The JSX trees are embedded as values of `Node`.  The router components that
`App.js` takes from `react-router-dom` (`HashRouter`, `Routes`, `Route`, `Link`)
are embedded by the behaviour of that library for the literal paths used here:
the location's pathname is percent-decoded, and a route path is compared with
the decoded pathname ignoring letter case and ignoring trailing slashes; an
empty pathname counts as the root.  `CurrentPath` is the pathname of the
router's location, as the URL fragment spells it (not yet decoded).
-/

namespace VetCare

/-! ## Document trees -/

/-- A rendered tree: a text child, a host element (`div`, `h1`, `li`, ...) with
its optional `className`, or a router `Link` with the target its `to` attribute declares. -/
inductive Node where
  | text (s : String)
  | element (tag : String) (className : Option String) (children : List Node)
  | link (target : String) (children : List Node)

mutual
/-- All text children of a tree, in document order. -/
def Node.texts : Node → List String
  | .text s => [s]
  | .element _ _ cs => Node.textsOfList cs
  | .link _ cs => Node.textsOfList cs
/-- Texts of a list of siblings, in document order. -/
def Node.textsOfList : List Node → List String
  | [] => []
  | c :: cs => c.texts ++ Node.textsOfList cs
end

mutual
/-- Every element and link of a tree (the tree itself included), in document
order: a node comes before its descendants and before its later siblings. -/
def Node.elements : Node → List Node
  | .text _ => []
  | .element tag cls cs => .element tag cls cs :: Node.elementsOfList cs
  | .link target cs => .link target cs :: Node.elementsOfList cs
/-- Elements of a list of siblings, in document order. -/
def Node.elementsOfList : List Node → List Node
  | [] => []
  | c :: cs => c.elements ++ Node.elementsOfList cs
end

/-- The tag of a node: the host tag of an element, `Link` for a link, empty for
a text child. -/
def Node.tag : Node → String
  | .text _ => ""
  | .element tag _ _ => tag
  | .link _ _ => "Link"

/-- The direct children of a node. -/
def Node.children : Node → List Node
  | .text _ => []
  | .element _ _ cs => cs
  | .link _ cs => cs

/-- The text content of a node: its texts concatenated. -/
def Node.textContent (n : Node) : String :=
  String.join n.texts

/-- The text content of every element with the given tag, in document order. -/
def Node.byTag (tag : String) (n : Node) : List String :=
  (n.elements.filter (fun e => e.tag == tag)).map Node.textContent

/-- The document outline: tag and text content of every element whose tag is
one of `tags`, in document order. -/
def Node.outline (tags : List String) (n : Node) : List (String × String) :=
  (n.elements.filter (fun e => tags.contains e.tag)).map
    (fun e => (e.tag, e.textContent))

/-- A navigation link as the user sees it: its label and its target. -/
structure NavLink where
  label : String
  target : String
  deriving DecidableEq, Repr

/-- The link a node is, if it is one. -/
def Node.asLink : Node → Option NavLink
  | .link target cs => some ⟨String.join (Node.textsOfList cs), target⟩
  | _ => none

/-- Every link of a tree, in document order. -/
def Node.links (n : Node) : List NavLink :=
  n.elements.filterMap Node.asLink

/-! ## The views of `App.js` -/

/-- `Home()`: the home page fragment. -/
def Home : Node :=
  .element "div" (some "home") [
    .element "h1" none [.text "Welcome to Vet Care"],
    .element "p" none [.text "Your trusted partner in pet healthcare"],
    .element "div" (some "services") [
      .element "h2" none [.text "Our Services"],
      .element "ul" none [
        .element "li" none [.text "Regular Check-ups"],
        .element "li" none [.text "Vaccinations"],
        .element "li" none [.text "Emergency Care"],
        .element "li" none [.text "Pet Grooming"]]]]

/-- `About()`: the about page fragment. -/
def About : Node :=
  .element "div" (some "about") [
    .element "h2" none [.text "About Us"],
    .element "p" none [.text "We are dedicated to providing the best care for your pets."]]

/-- The `nav` element of `App`: two `Link`s. -/
def navMenu : Node :=
  .element "nav" (some "nav-menu") [
    .link "/" [.text "Home"],
    .link "/about" [.text "About"]]

/-! ## The router (`react-router-dom`, as `App.js` uses it) -/

/-- Value of a hexadecimal digit, in either letter case. -/
def hexDigit (c : Char) : Option Nat :=
  if 48 ≤ c.toNat ∧ c.toNat ≤ 57 then some (c.toNat - 48)
  else if 97 ≤ c.toNat ∧ c.toNat ≤ 102 then some (c.toNat - 87)
  else if 65 ≤ c.toNat ∧ c.toNat ≤ 70 then some (c.toNat - 55)
  else none

/-- A piece of an encoded string: a character standing for itself, or the
octet a `%XY` escape spells. -/
inductive Token where
  | lit (c : Char)
  | octet (b : Nat)

/-- Reading the escapes of an encoded string.  A `%` that is not followed by two
hexadecimal digits makes the string malformed (`none`). -/
def tokens : List Char → Option (List Token)
  | [] => some []
  | '%' :: x :: y :: rest =>
    match hexDigit x, hexDigit y, tokens rest with
    | some a, some b, some ts => some (.octet (16 * a + b) :: ts)
    | _, _, _ => none
  | c :: rest =>
    if c = '%' then none
    else match tokens rest with
      | some ts => some (.lit c :: ts)
      | none => none

/-- The payload of a UTF-8 continuation octet (`80`..`BF`); anything else,
a plain character included, is not a continuation. -/
def continuation : Token → Option Nat
  | .octet b => if 0x80 ≤ b ∧ b ≤ 0xBF then some (b - 0x80) else none
  | .lit _ => none

/-- The character of a code point assembled from a multi-octet sequence: the
code point must need that many octets (`least`), must not be a surrogate and
must not exceed `10FFFF`. -/
def scalar (least cp : Nat) : Option Char :=
  if least ≤ cp ∧ cp ≤ 0x10FFFF ∧ ¬ (0xD800 ≤ cp ∧ cp ≤ 0xDFFF) then some (Char.ofNat cp)
  else none

/-- Assembling characters from the pieces: an octet below `80` is the ASCII
character; a lead octet `C0`..`DF`, `E0`..`EF`, `F0`..`F7` must be followed by
one, two, three continuation octets that form a valid UTF-8 sequence; any other
octet makes the string malformed. -/
def assemble : List Token → Option (List Char)
  | [] => some []
  | .lit c :: ts => (assemble ts).map (fun r => c :: r)
  | .octet b :: ts =>
    if b < 0x80 then (assemble ts).map (fun r => Char.ofNat b :: r)
    else if 0xC0 ≤ b ∧ b ≤ 0xDF then
      match ts with
      | t1 :: ts1 =>
        match continuation t1, assemble ts1 with
        | some c1, some r => (scalar 0x80 ((b - 0xC0) * 64 + c1)).map (fun ch => ch :: r)
        | _, _ => none
      | _ => none
    else if 0xE0 ≤ b ∧ b ≤ 0xEF then
      match ts with
      | t1 :: t2 :: ts2 =>
        match continuation t1, continuation t2, assemble ts2 with
        | some c1, some c2, some r =>
          (scalar 0x800 (((b - 0xE0) * 64 + c1) * 64 + c2)).map (fun ch => ch :: r)
        | _, _, _ => none
      | _ => none
    else if 0xF0 ≤ b ∧ b ≤ 0xF7 then
      match ts with
      | t1 :: t2 :: t3 :: ts3 =>
        match continuation t1, continuation t2, continuation t3, assemble ts3 with
        | some c1, some c2, some c3, some r =>
          (scalar 0x10000 ((((b - 0xF0) * 64 + c1) * 64 + c2) * 64 + c3)).map
            (fun ch => ch :: r)
        | _, _, _, _ => none
      | _ => none
    else none

/-- The JavaScript `decodeURIComponent`: every `%XY` escape is replaced by the
character its UTF-8 octets encode; `none` where JavaScript throws a `URIError`. -/
def decodeURIComponent (s : List Char) : Option (List Char) :=
  (tokens s).bind assemble

/-- The JavaScript `split("/")`: the segments between slashes. -/
def splitOnSlash : List Char → List (List Char)
  | [] => [[]]
  | c :: cs =>
    match splitOnSlash cs with
    | [] => if c = '/' then [[], []] else [[c]]
    | seg :: segs => if c = '/' then [] :: seg :: segs else (c :: seg) :: segs

/-- Every segment decoded, a decoded slash written back as `%2F`; `none` as soon
as one segment is malformed. -/
def decodeSegments : List (List Char) → Option (List (List Char))
  | [] => some []
  | seg :: segs =>
    match decodeURIComponent seg, decodeSegments segs with
    | some d, some ds =>
      some ((d.flatMap (fun c => if c = '/' then ['%', '2', 'F'] else [c])) :: ds)
    | _, _ => none

/-- The pathname as the router matches it: split at the slashes, each segment
decoded (an escaped slash stays escaped), joined again; a malformed pathname is
matched as it is written. -/
def decodePath (pathname : String) : String :=
  match decodeSegments (splitOnSlash pathname.toList) with
  | some segs => String.mk (List.intercalate ['/'] segs)
  | none => pathname

/-- Comparison of one character of a route path with one character of the
pathname.  A `Route` without `caseSensitive` is matched ignoring letter case;
for the ASCII paths of `App.js` that is equality after lowering `A`..`Z`. -/
def sameCharIgnoringCase (c d : Char) : Bool :=
  c.toLower == d.toLower

/-- Whether the pathname is the given literal followed by nothing but slashes:
the test the router compiles a parameter-free leaf route path into (match to the
end, trailing slashes ignored, letter case ignored). -/
def matchesLiteral : List Char → List Char → Bool
  | [], rest => rest.all (fun d => d == '/')
  | _ :: _, [] => false
  | c :: cs, d :: ds => sameCharIgnoringCase c d && matchesLiteral cs ds

/-- The literal a route path is compiled to: its trailing slashes are dropped
and it is given exactly one leading slash. -/
def normalizePath (path : String) : List Char :=
  '/' :: ((path.toList.reverse.dropWhile (fun c => c == '/')).reverse.dropWhile
    (fun c => c == '/'))

/-- Whether a parameter-free leaf route path matches a pathname. -/
def matchPath (path pathname : String) : Bool :=
  matchesLiteral (normalizePath path) pathname.toList

/-- A `<Route path=... element=... />`. -/
structure Route where
  path : String
  element : Node

/-- The `<Routes>` block at a pathname: the element of the route that matches
the decoded pathname, or nothing when none does.  An empty pathname is taken as
the root.  (The router ranks routes before matching; `routes_exclusive` below
shows that the two routes of `App` never match the same pathname, so the order
is immaterial.) -/
def Routes (routes : List Route) (pathname : String) : Option Node :=
  let pathname := if pathname = "" then "/" else pathname
  let decoded := decodePath pathname
  (routes.find? (fun r => matchPath r.path decoded)).map Route.element

/-- The two `Route` children of the `Routes` block of `App`. -/
def routes : List Route :=
  [⟨"/", Home⟩, ⟨"/about", About⟩]

/-- `App()` rendered at a current path: the `div` of class `App` holding the
navigation menu and then what `Routes` renders.  The enclosing `Router` adds no
node of its own. -/
def App (currentPath : String) : Node :=
  .element "div" (some "App")
    (navMenu :: (Routes routes currentPath).toList)

/-- The pathname part of a path string: what stands before the first `?` or
`#`, if that is not empty. -/
def parsePathname (path : String) : Option String :=
  match path.toList.takeWhile (fun c => c != '#' && c != '?') with
  | [] => none
  | c :: cs => some (String.mk (c :: cs))

/-- The text of a URL fragment that names the path: what follows the leading
`#` up to the first `?` or further `#`. -/
def fragmentPath (hash : String) : List Char :=
  (hash.toList.drop 1).takeWhile (fun c => c != '#' && c != '?')

/-- The pathname `HashRouter` reads from the URL fragment (`window.location.hash`,
which is empty or starts with `#`): the default is the root, and a pathname that
starts with neither a slash nor a dot is given a leading slash. -/
def hashLocation (hash : String) : String :=
  match parsePathname (String.mk (hash.toList.drop 1)) with
  | none => "/"
  | some p =>
    if p.toList.head? = some '/' || p.toList.head? = some '.' then p
    else String.mk ('/' :: p.toList)

/-- The pathname a navigation to `target` leads to.  An absolute target is the
new pathname whatever the current one is; a target that is only a search or a
hash part keeps the current pathname.  The empty target and relative targets are
resolved against the route hierarchy; `App` declares none and they are outside
this model (`none`). -/
def navigate (target : String) (locationPathname : String) : Option String :=
  match parsePathname target with
  | none => if target = "" then none else some locationPathname
  | some p => if p.toList.head? = some '/' then some p else none

/-- Activating a link in the state `currentPath`: possible only for a link that
the output rendered in that state contains, and then a navigation to the link's
target. -/
def activate (currentPath : String) (l : NavLink) : Option String :=
  if l ∈ (App currentPath).links then navigate l.target currentPath else none

/-- A finite sequence of link activations, one after the other. -/
def activateAll : String → List NavLink → Option String
  | s, [] => some s
  | s, l :: ls => (activate s l).bind (fun s1 => activateAll s1 ls)

/-- The output contains all of a view's texts. -/
def showsContentOf (output view : Node) : Prop :=
  ∀ t ∈ view.texts, t ∈ output.texts

/-- The output contains none of a view's texts. -/
def showsNoContentOf (output view : Node) : Prop :=
  ∀ t ∈ view.texts, t ∉ output.texts

instance (output view : Node) : Decidable (showsContentOf output view) :=
  inferInstanceAs (Decidable (∀ t ∈ view.texts, t ∈ output.texts))

instance (output view : Node) : Decidable (showsNoContentOf output view) :=
  inferInstanceAs (Decidable (∀ t ∈ view.texts, t ∉ output.texts))

/-! ## Route matching, characterised -/

/-- Lowering an upper-case ASCII letter adds 32 to its code. -/
theorem toLower_of_upper (c : Char) (h : c.toNat ≥ 65 ∧ c.toNat ≤ 90) :
    c.toLower.toNat = c.toNat + 32 := by
  obtain ⟨h1, h2⟩ := h
  have hc : c = Char.ofNat c.toNat := (Char.ofNat_toNat c).symm
  generalize c.toNat = n at *
  subst hc
  interval_cases n <;> rfl

/-- Only the slash lowers to the slash. -/
theorem toLower_eq_slash (d : Char) : d.toLower = '/' ↔ d = '/' := by
  constructor
  · intro h
    by_cases hu : d.toNat ≥ 65 ∧ d.toNat ≤ 90
    · have h32 := toLower_of_upper d hu
      rw [h] at h32
      have h47 : ('/' : Char).toNat = 47 := rfl
      omega
    · have hd : d.toLower = d := by
        unfold Char.toLower
        simp only [hu, if_false]
      rw [← hd]; exact h
  · rintro rfl; rfl

/-- A list lowers to a run of slashes exactly when it is that run. -/
theorem map_toLower_eq_replicate (l : List Char) (k : Nat) :
    l.map Char.toLower = List.replicate k '/' ↔ l = List.replicate k '/' := by
  induction l generalizing k with
  | nil => cases k <;> simp [List.replicate_succ]
  | cons d ds ih =>
    cases k with
    | zero => simp
    | succ k =>
      simp only [List.map_cons, List.replicate_succ, List.cons.injEq, ih, toLower_eq_slash]

/-- The tail test of a route match: nothing but slashes. -/
theorem all_slash_iff (l : List Char) :
    l.all (fun d => d == '/') = true ↔ ∃ k, l = List.replicate k '/' := by
  induction l with
  | nil => exact ⟨fun _ => ⟨0, rfl⟩, fun _ => rfl⟩
  | cons d ds ih =>
    simp only [List.all_cons, Bool.and_eq_true, beq_iff_eq, ih]
    constructor
    · rintro ⟨rfl, k, rfl⟩
      exact ⟨k + 1, rfl⟩
    · rintro ⟨k, hk⟩
      cases k with
      | zero => simp at hk
      | succ k =>
        rw [List.replicate_succ] at hk
        injection hk with h1 h2
        exact ⟨h1, k, h2⟩

/-- A literal matches a pathname exactly when the pathname, letter case aside,
is the literal followed by some number of slashes. -/
theorem matchesLiteral_iff (pat path : List Char) :
    matchesLiteral pat path = true ↔
      ∃ k, path.map Char.toLower = pat.map Char.toLower ++ List.replicate k '/' := by
  induction pat generalizing path with
  | nil =>
    simp only [matchesLiteral, List.map_nil, List.nil_append, all_slash_iff,
      map_toLower_eq_replicate]
  | cons c cs ih =>
    cases path with
    | nil => simp [matchesLiteral]
    | cons d ds =>
      simp only [matchesLiteral, sameCharIgnoringCase, Bool.and_eq_true, beq_iff_eq, ih,
        List.map_cons, List.cons_append, List.cons.injEq]
      constructor
      · rintro ⟨h, k, hk⟩
        exact ⟨k, h.symm, hk⟩
      · rintro ⟨k, h, hk⟩
        exact ⟨h.symm, k, hk⟩

/-- The root route matches the pathnames made of one or more slashes. -/
theorem matchPath_root_iff (p : String) :
    matchPath "/" p = true ↔ ∃ k, p.toList = List.replicate (k + 1) '/' := by
  have hn : normalizePath "/" = ['/'] := by decide
  unfold matchPath
  rw [hn, matchesLiteral_iff]
  constructor
  · rintro ⟨k, hk⟩
    exact ⟨k, (map_toLower_eq_replicate _ (k + 1)).1 hk⟩
  · rintro ⟨k, hk⟩
    exact ⟨k, (map_toLower_eq_replicate _ (k + 1)).2 hk⟩

/-- The about route matches the pathnames that are `/about` in any letter case
followed by any number of slashes. -/
theorem matchPath_about_iff (p : String) :
    matchPath "/about" p = true ↔
      ∃ k, p.toList.map Char.toLower = "/about".toList ++ List.replicate k '/' := by
  have hn : normalizePath "/about" = "/about".toList := by decide
  have hm : ("/about".toList).map Char.toLower = "/about".toList := by decide
  unfold matchPath
  rw [hn, matchesLiteral_iff, hm]

/-- The two routes of `App` never match the same pathname. -/
theorem routes_exclusive (p : String) :
    ¬ (matchPath "/" p = true ∧ matchPath "/about" p = true) := by
  rintro ⟨h1, h2⟩
  obtain ⟨k, hk⟩ := (matchPath_root_iff p).1 h1
  obtain ⟨j, hj⟩ := (matchPath_about_iff p).1 h2
  rw [hk] at hj
  cases k with
  | zero => simp [List.replicate_succ] at hj
  | succ k =>
    simp [List.replicate_succ] at hj

/-! ## What `App` renders, by cases -/

/-- What the `Routes` block of `App` renders, by the two matches. -/
theorem Routes_routes (p : String) :
    Routes routes p =
      if matchPath "/" (decodePath (if p = "" then "/" else p)) = true then some Home
      else if matchPath "/about" (decodePath (if p = "" then "/" else p)) = true then some About
      else none := by
  simp only [Routes, routes, List.find?]
  cases h1 : matchPath "/" (decodePath (if p = "" then "/" else p)) <;>
    cases h2 : matchPath "/about" (decodePath (if p = "" then "/" else p)) <;> simp

/-- At every path `App` renders one of three trees. -/
theorem App_cases (p : String) :
    App p = .element "div" (some "App") [navMenu, Home] ∨
    App p = .element "div" (some "App") [navMenu, About] ∨
    App p = .element "div" (some "App") [navMenu] := by
  unfold App
  rw [Routes_routes]
  by_cases h1 : matchPath "/" (decodePath (if p = "" then "/" else p)) = true
  · rw [if_pos h1]
    exact Or.inl rfl
  · rw [if_neg h1]
    by_cases h2 : matchPath "/about" (decodePath (if p = "" then "/" else p)) = true
    · rw [if_pos h2]
      exact Or.inr (Or.inl rfl)
    · rw [if_neg h2]
      exact Or.inr (Or.inr rfl)

/-- The links of the output are those of the navigation menu, at every path. -/
theorem App_links (p : String) :
    (App p).links = [⟨"Home", "/"⟩, ⟨"About", "/about"⟩] := by
  rcases App_cases p with h | h | h <;> rw [h] <;> decide

/-- Activating a link of the navigation menu leads to its target, from any
state. -/
theorem activate_nav (s : String) (l : NavLink)
    (h : l ∈ ([⟨"Home", "/"⟩, ⟨"About", "/about"⟩] : List NavLink)) :
    activate s l = some l.target := by
  unfold activate
  rw [App_links, if_pos h]
  simp only [List.mem_cons, List.mem_singleton, List.not_mem_nil, or_false] at h
  rcases h with rfl | rfl <;> rfl

/-- An activation that happens is one of a link of the navigation menu. -/
theorem activate_some (s t : String) (l : NavLink) (h : activate s l = some t) :
    l ∈ ([⟨"Home", "/"⟩, ⟨"About", "/about"⟩] : List NavLink) ∧ t = l.target := by
  unfold activate at h
  rw [App_links] at h
  by_cases hl : l ∈ ([⟨"Home", "/"⟩, ⟨"About", "/about"⟩] : List NavLink)
  · refine ⟨hl, ?_⟩
    have h2 := activate_nav s l hl
    unfold activate at h2
    rw [App_links] at h2
    rw [h2] at h
    exact (Option.some.inj h).symm
  · rw [if_neg hl] at h
    exact absurd h (by simp)

/-- A sequence of activations of navigation links ends at the target of the
last one, or where it started when the sequence is empty. -/
theorem activateAll_nav (s : String) (es : List NavLink)
    (h : ∀ l ∈ es, l ∈ ([⟨"Home", "/"⟩, ⟨"About", "/about"⟩] : List NavLink)) :
    activateAll s es = some ((es.getLast?.map NavLink.target).getD s) := by
  induction es generalizing s with
  | nil => rfl
  | cons l ls ih =>
    have hl := activate_nav s l (h l (List.mem_cons_self _ _))
    have hls := ih l.target (fun m hm => h m (List.mem_cons_of_mem _ hm))
    simp only [activateAll, hl, Option.some_bind, hls]
    cases ls with
    | nil => rfl
    | cons m ms =>
      obtain ⟨x, hx⟩ : ∃ x, (m :: ms).getLast? = some x :=
        ⟨_, List.getLast?_eq_getLast _ (List.cons_ne_nil m ms)⟩
      rw [List.getLast?_cons_cons, hx]
      rfl

/-- A sequence of activations ends where it started or at a registered path. -/
theorem activateAll_some (s t : String) (es : List NavLink)
    (h : activateAll s es = some t) : t = s ∨ t = "/" ∨ t = "/about" := by
  induction es generalizing s with
  | nil =>
    simp only [activateAll, Option.some.injEq] at h
    exact Or.inl h.symm
  | cons l ls ih =>
    simp only [activateAll] at h
    cases ha : activate s l with
    | none => rw [ha] at h; simp at h
    | some s1 =>
      rw [ha, Option.some_bind] at h
      obtain ⟨hl, hs1⟩ := activate_some s s1 l ha
      have hreg : s1 = "/" ∨ s1 = "/about" := by
        simp only [List.mem_cons, List.mem_singleton, List.not_mem_nil, or_false] at hl
        rcases hl with rfl | rfl
        · exact Or.inl hs1
        · exact Or.inr hs1
      rcases ih s1 h with h1 | h1 | h1
      · rcases hreg with h2 | h2
        · exact Or.inr (Or.inl (h1.trans h2))
        · exact Or.inr (Or.inr (h1.trans h2))
      · exact Or.inr (Or.inl h1)
      · exact Or.inr (Or.inr h1)

/-- The fragments at which `HashRouter` starts at the root path. -/
theorem hashLocation_eq_root_iff (hash : String) :
    hashLocation hash = "/" ↔ fragmentPath hash = [] ∨ fragmentPath hash = ['/'] := by
  have hroot : ("/" : String) = String.mk ['/'] := rfl
  unfold hashLocation parsePathname fragmentPath
  have hd : (String.mk (List.drop 1 hash.toList)).toList = List.drop 1 hash.toList := rfl
  rw [hd]
  cases List.takeWhile (fun c => c != '#' && c != '?') (List.drop 1 hash.toList) with
  | nil => simp
  | cons c cs =>
    simp only [reduceCtorEq, false_or, List.cons.injEq]
    have hl : (String.mk (c :: cs)).toList = c :: cs := rfl
    rw [hl, List.head?_cons]
    by_cases h1 : c = '/'
    · subst h1
      simp [hroot, String.ext_iff]
    · by_cases h2 : c = '.'
      · subst h2
        simp [hroot, String.ext_iff]
      · simp [h1, h2, hroot, String.ext_iff]

/-- A link activated in any state leads to the path that `HashRouter` reads from
the fragment spelling the link's target. -/
theorem activation_agrees_with_fragment (s : String) (l : NavLink)
    (h : l ∈ (App s).links) :
    activate s l = some (hashLocation ("#" ++ l.target)) := by
  rw [App_links] at h
  rw [activate_nav s l h]
  simp only [List.mem_cons, List.mem_singleton, List.not_mem_nil, or_false] at h
  rcases h with rfl | rfl <;> rfl

/-! ## The claims -/

/-- C1, as stated, fails: the path `/about/` is neither `/` nor `/about`, yet the
output rendered there contains all of About's content (it is the output rendered
at `/about`); the same holds for `/ABOUT`. -/
theorem unmatched_claim_fails_at_trailing_slash :
    "/about/" ≠ "/" ∧ "/about/" ≠ "/about" ∧
    App "/about/" = .element "div" (some "App") [navMenu, About] ∧
    ¬ showsNoContentOf (App "/about/") About ∧
    "/ABOUT" ≠ "/" ∧ "/ABOUT" ≠ "/about" ∧
    ¬ showsNoContentOf (App "/ABOUT") About :=
  ⟨by decide, by decide, rfl, by decide, by decide, by decide, by decide⟩

/-- C1, amended: for every path whose percent-decoded form matches neither route
(decoded, it is not a run of slashes, the empty path included, and it is not
`/about` in any letter case followed by any number of slashes) the output is the
`App` container holding the navigation menu and nothing else, so it contains the
two links and none of Home's and none of About's content; `App` returns a tree
there, not an error. -/
theorem unmatched_path_renders_nav_only (p : String)
    (hroot : ∀ k, (decodePath p).toList ≠ List.replicate k '/')
    (habout : ∀ k, (decodePath p).toList.map Char.toLower
      ≠ "/about".toList ++ List.replicate k '/') :
    App p = .element "div" (some "App") [navMenu] ∧
    (App p).links = [⟨"Home", "/"⟩, ⟨"About", "/about"⟩] ∧
    showsNoContentOf (App p) Home ∧ showsNoContentOf (App p) About := by
  have hp : p ≠ "" := by
    intro h
    exact hroot 0 (by rw [h]; decide)
  have h1 : ¬ matchPath "/" (decodePath p) = true := by
    intro h
    obtain ⟨k, hk⟩ := (matchPath_root_iff _).1 h
    exact hroot (k + 1) hk
  have h2 : ¬ matchPath "/about" (decodePath p) = true := by
    intro h
    obtain ⟨k, hk⟩ := (matchPath_about_iff _).1 h
    exact habout k hk
  have hApp : App p = .element "div" (some "App") [navMenu] := by
    unfold App
    rw [Routes_routes, if_neg hp, if_neg h1, if_neg h2]
    rfl
  refine ⟨hApp, App_links p, ?_, ?_⟩ <;> rw [hApp] <;> decide

/-- Witness for C1, amended: the path `/contact`. -/
theorem unmatched_path_renders_nav_only_witness :
    App "/contact" = .element "div" (some "App") [navMenu] ∧
    (App "/contact").links = [⟨"Home", "/"⟩, ⟨"About", "/about"⟩] ∧
    showsNoContentOf (App "/contact") Home ∧ showsNoContentOf (App "/contact") About :=
  unmatched_path_renders_nav_only "/contact"
    (fun k h => by
      have e : (decodePath "/contact").toList
          = ['/', 'c', 'o', 'n', 't', 'a', 'c', 't'] := by decide
      have hc : 'c' ∈ (decodePath "/contact").toList := by rw [e]; decide
      rw [h] at hc
      exact absurd (List.eq_of_mem_replicate hc) (by decide))
    (fun k h => by
      have e1 : "/about".toList = ['/', 'a', 'b', 'o', 'u', 't'] := rfl
      have e2 : List.map Char.toLower (decodePath "/contact").toList
          = ['/', 'c', 'o', 'n', 't', 'a', 'c', 't'] := by decide
      rw [e1, e2] at h
      have hc : 'c' = 'a' := by
        injection h with _ h
        injection h
      exact absurd hc (by decide))

/-- C2: at the path `/` the output contains the heading "Welcome to Vet Care",
its list items are exactly the four services in the order of the source, and it
contains none of About's content. -/
theorem home_path_renders_home :
    (App "/").byTag "h1" = ["Welcome to Vet Care"] ∧
    (App "/").byTag "li" =
      ["Regular Check-ups", "Vaccinations", "Emergency Care", "Pet Grooming"] ∧
    ((App "/").byTag "li").length = 4 ∧
    showsNoContentOf (App "/") About := by
  decide

/-- C3: at the path `/about` the output contains the heading "About Us" and
exactly one paragraph, with the fixed text, and it contains no list item and
none of Home's content. -/
theorem about_path_renders_about :
    (App "/about").byTag "h2" = ["About Us"] ∧
    (App "/about").byTag "p" =
      ["We are dedicated to providing the best care for your pets."] ∧
    (App "/about").byTag "li" = [] ∧
    (App "/about").byTag "ul" = [] ∧
    showsNoContentOf (App "/about") Home := by
  decide

/-- C4: at every path the output has exactly two links, "Home" to `/` and then
"About" to `/about`; they are the links of the navigation menu, which is the
first child of the output and so precedes whatever view follows it. -/
theorem nav_menu_at_every_path (p : String) :
    (App p).links = [⟨"Home", "/"⟩, ⟨"About", "/about"⟩] ∧
    navMenu.links = [⟨"Home", "/"⟩, ⟨"About", "/about"⟩] ∧
    ∃ view, App p = .element "div" (some "App") (navMenu :: view) ∧
      (view = [Home] ∨ view = [About] ∨ view = []) := by
  refine ⟨App_links p, by decide, ?_⟩
  rcases App_cases p with h | h | h
  · exact ⟨[Home], h, Or.inl rfl⟩
  · exact ⟨[About], h, Or.inr (Or.inl rfl)⟩
  · exact ⟨[], h, Or.inr (Or.inr rfl)⟩

/-- C5: activating a link of the output rendered in any state leads to exactly
that link's target and leaves the navigation links as they were; activating
"About" in the state `/` leads to `/about`, where the output contains About's
content and none of Home's, which the output at `/` contained. -/
theorem link_activation_sets_target (s : String) (l : NavLink) (h : l ∈ (App s).links) :
    activate s l = some l.target ∧
    (App l.target).links = (App s).links ∧
    activate "/" ⟨"About", "/about"⟩ = some "/about" ∧
    showsContentOf (App "/") Home ∧
    showsContentOf (App "/about") About ∧
    showsNoContentOf (App "/about") Home := by
  rw [App_links] at h
  refine ⟨activate_nav s l h, ?_, by decide, by decide, by decide, by decide⟩
  rw [App_links, App_links]

/-- Witness for C5: the "Home" link activated in the unmatched state `/contact`. -/
theorem link_activation_sets_target_witness :
    (⟨"Home", "/"⟩ : NavLink) ∈ (App "/contact").links ∧
    activate "/contact" ⟨"Home", "/"⟩ = some "/" :=
  ⟨by decide, (link_activation_sets_target "/contact" ⟨"Home", "/"⟩ (by decide)).1⟩

/-- C6: from the state `/`, activating "About" and then "Home" ends in the state
`/`, and the output rendered there is the output rendered at the start: the
`App` container with the navigation menu and Home. -/
theorem about_then_home_round_trip :
    activate "/" ⟨"About", "/about"⟩ = some "/about" ∧
    activate "/about" ⟨"Home", "/"⟩ = some "/" ∧
    ∃ s, activateAll "/" [⟨"About", "/about"⟩, ⟨"Home", "/"⟩] = some s ∧
      s = "/" ∧ App s = App "/" ∧
      App s = .element "div" (some "App") [navMenu, Home] :=
  ⟨by decide, by decide, "/", by decide, rfl, rfl, rfl⟩

/-- C7, as stated, fails: opened at the URL fragment `#/about`, the application
starts with the current path `/about`, and the first output contains About's
content and none of Home's. -/
theorem start_claim_fails_at_about_fragment :
    hashLocation "#/about" ≠ "/" ∧
    App (hashLocation "#/about") = .element "div" (some "App") [navMenu, About] ∧
    showsNoContentOf (App (hashLocation "#/about")) Home :=
  ⟨by decide, rfl, by decide⟩

/-- C7, amended: opened at a URL whose fragment names no path or names the root
(what follows the leading `#` up to the first `?` or further `#` is empty or is
`/`), the application starts with the current path `/`, and the first output is
the navigation menu followed by Home; these are the only fragments at which it
starts with the current path `/`. -/
theorem start_at_root_fragment (hash : String) :
    (hashLocation hash = "/" ↔ fragmentPath hash = [] ∨ fragmentPath hash = ['/']) ∧
    (fragmentPath hash = [] ∨ fragmentPath hash = ['/'] →
      hashLocation hash = "/" ∧
      App (hashLocation hash) = .element "div" (some "App") [navMenu, Home] ∧
      showsContentOf (App (hashLocation hash)) Home) := by
  refine ⟨hashLocation_eq_root_iff hash, fun h => ?_⟩
  have hs : hashLocation hash = "/" := (hashLocation_eq_root_iff hash).2 h
  rw [hs]
  exact ⟨rfl, rfl, by decide⟩

/-- Witness for C7, amended: no fragment, and the fragment `#/?tab=1`. -/
theorem start_at_root_fragment_witness :
    (fragmentPath "" = [] ∨ fragmentPath "" = ['/']) ∧
    hashLocation "" = "/" ∧
    App (hashLocation "#/?tab=1") = .element "div" (some "App") [navMenu, Home] :=
  ⟨by decide, ((start_at_root_fragment "").2 (by decide)).1,
    ((start_at_root_fragment "#/?tab=1").2 (by decide)).2.1⟩

/-- C9: the headings, paragraphs and lists of Home are, in document order, one
`h1` "Welcome to Vet Care", one `p` "Your trusted partner in pet healthcare",
one `h2` "Our Services" and one `ul`; the children of that `ul` are exactly the
four `li` of the source, and Home has no other `li`. -/
theorem home_fragment_order :
    (Home.outline ["h1", "h2", "h3", "h4", "h5", "h6", "p", "ul", "ol"]).map Prod.fst
      = ["h1", "p", "h2", "ul"] ∧
    Home.byTag "h1" = ["Welcome to Vet Care"] ∧
    Home.byTag "p" = ["Your trusted partner in pet healthcare"] ∧
    Home.byTag "h2" = ["Our Services"] ∧
    (Home.elements.filter (fun e => e.tag == "ul")).map
        (fun u => u.children.map (fun c => (c.tag, c.textContent)))
      = [[("li", "Regular Check-ups"), ("li", "Vaccinations"),
          ("li", "Emergency Care"), ("li", "Pet Grooming")]] ∧
    Home.byTag "li" =
      ["Regular Check-ups", "Vaccinations", "Emergency Care", "Pet Grooming"] := by
  decide

/-- C10: every state that a sequence of link activations reaches from `/` is `/`
or `/about`, and the output there is the navigation menu followed by exactly one
of Home and About; every sequence of navigation links can be activated from `/`,
and a non-empty one ends at the target of its last link. -/
theorem reachable_states_registered (es : List NavLink) :
    (∀ s, activateAll "/" es = some s →
      (s = "/" ∨ s = "/about") ∧
      ((App s = .element "div" (some "App") [navMenu, Home] ∧
          showsContentOf (App s) Home ∧ showsNoContentOf (App s) About) ∨
        (App s = .element "div" (some "App") [navMenu, About] ∧
          showsContentOf (App s) About ∧ showsNoContentOf (App s) Home))) ∧
    ((∀ l ∈ es, l ∈ navMenu.links) →
      ∃ s, activateAll "/" es = some s ∧ ∀ l, es.getLast? = some l → s = l.target) := by
  constructor
  · intro s hs
    have hreg : s = "/" ∨ s = "/about" := by
      rcases activateAll_some "/" s es hs with h | h | h
      · exact Or.inl h
      · exact Or.inl h
      · exact Or.inr h
    refine ⟨hreg, ?_⟩
    rcases hreg with rfl | rfl
    · exact Or.inl ⟨rfl, by decide, by decide⟩
    · exact Or.inr ⟨rfl, by decide, by decide⟩
  · intro h
    refine ⟨_, activateAll_nav "/" es h, ?_⟩
    intro l hl
    rw [hl]
    rfl

/-- Witness for C10: "About", "Home", "About" activated from `/`. -/
theorem reachable_states_registered_witness :
    activateAll "/" [⟨"About", "/about"⟩, ⟨"Home", "/"⟩, ⟨"About", "/about"⟩]
      = some "/about" ∧
    ∃ s, activateAll "/" [⟨"About", "/about"⟩, ⟨"Home", "/"⟩, ⟨"About", "/about"⟩] = some s ∧
      ∀ l, ([⟨"About", "/about"⟩, ⟨"Home", "/"⟩, ⟨"About", "/about"⟩] : List NavLink).getLast?
        = some l → s = l.target :=
  ⟨by decide,
    (reachable_states_registered [⟨"About", "/about"⟩, ⟨"Home", "/"⟩, ⟨"About", "/about"⟩]).2
      (by decide)⟩

end VetCare
